import Mathlib

/-!
# Verification of the node-telnet core (lib/telnet.js)

A shallow embedding of the telnet frame parser, option-negotiation
default policy, and session input loop of `lib/telnet.js`, together with
theorems settling the specification claims about them.

Bytes are modelled as `Nat` values (< 256 on the wire); byte buffers as
`List Nat`.  The JS `Buffers` object that the parser receives is mutable
and the parser consumes bytes from it via `splice`; we model every
parsing function as returning the result *together with* the buffer
contents after the call, so that mutation (or its absence) is visible.
-/

namespace Telnet

/-- Command codes from the `COMMANDS` table of `lib/telnet.js`. -/
def SE : Nat := 240
def SB : Nat := 250
def WILL : Nat := 251
def WONT : Nat := 252
def DO : Nat := 253
def DONT : Nat := 254
def IAC : Nat := 255

/-- The `COMMAND_NAMES` table: numeric command code to lower-cased symbolic name,
built from the `COMMANDS` table. -/
def COMMAND_NAMES (c : Nat) : Option String :=
  match c with
  | 240 => some "se"
  | 241 => some "nop"
  | 242 => some "dm"
  | 243 => some "brk"
  | 244 => some "ip"
  | 245 => some "ao"
  | 246 => some "ayt"
  | 247 => some "ec"
  | 248 => some "el"
  | 249 => some "ga"
  | 250 => some "sb"
  | 251 => some "will"
  | 252 => some "wont"
  | 253 => some "do"
  | 254 => some "dont"
  | 255 => some "iac"
  | _ => none

/-- The `OPTION_NAMES` table: numeric option code to lower-cased, space-separated
name, built from the `OPTIONS` table. -/
def OPTION_NAMES (o : Nat) : Option String :=
  match o with
  | 0 => some "transmit binary"
  | 1 => some "echo"
  | 3 => some "suppress go ahead"
  | 5 => some "status"
  | 6 => some "timing mark"
  | 24 => some "terminal type"
  | 31 => some "window size"
  | 32 => some "terminal speed"
  | 33 => some "remote flow control"
  | 34 => some "linemode"
  | 35 => some "x display location"
  | 37 => some "authentication"
  | 39 => some "environment variables"
  | _ => none

/-- The option codes registered to the no-argument decoder
(`OPTION_IMPLS[OPTIONS.ECHO] = ... = OPTION_IMPLS[OPTIONS.SUPPRESS_GO_AHEAD]`).
Note `TIMING_MARK` (6) and `WINDOW_SIZE` (31) are *not* in this list:
31 has its own decoder and 6 has no `OPTION_IMPLS` entry at all. -/
def NO_ARGS_OPTIONS : List Nat := [1, 5, 34, 0, 37, 32, 24, 33, 39, 35, 3]

/-- Whether `OPTION_IMPLS[o]` is (a reference to) the no-argument decoder. -/
def hasNoArgsImpl (o : Nat) : Bool := NO_ARGS_OPTIONS.contains o

/-- The option codes for which `OPTION_IMPLS[o]` is defined at all:
the no-argument options plus `WINDOW_SIZE` (31). -/
def DECODER_OPTIONS : List Nat := NO_ARGS_OPTIONS ++ [31]

/-- The `event` object the parser populates.  `cols`/`columns` in the JS
are aliases of `width` and `rows` of `height`; they are not modelled
separately. -/
structure ParseEvent where
  commandCode : Nat := 0
  command : Option String := none
  optionCode : Option Nat := none
  option : Option String := none
  buf : List Nat := []
  data : Option (List Nat) := none
  width : Option Nat := none
  height : Option Nat := none
deriving DecidableEq

/-- Outcome of one parsing call: the sentinel `MORE` (= -123132 in the
JS), a populated event, or a thrown JS exception (`assert` failure or a
`TypeError` from calling a missing table entry). -/
inductive PResult where
  | more
  | ev (e : ParseEvent)
  | err (msg : String)
deriving DecidableEq

/-- The no-argument decoder `OPTION_IMPLS.NO_ARGS`, whose body is
`event.buf = bufs.splice(0, i).toBuffer()`.
The first `i` bytes are removed from the buffer and recorded as the
raw bytes of the event. -/
def noArgsImpl (bufs : List Nat) (i : Nat) (e : ParseEvent) :
    PResult × List Nat :=
  (PResult.ev { e with buf := bufs.take i }, bufs.drop i)

/-- The decoder `OPTION_IMPLS[OPTIONS.WINDOW_SIZE]`: for non-`SB` commands behaves
like the no-argument decoder; for `SB` requires a 9-byte frame, splices
it off, `assert`s the boundary markers (IAC/SB/option/IAC/SE) and
decodes width and height as unsigned 16-bit big-endian.  The `splice`
happens before the `assert`s, so on an assertion failure the 9 bytes
are already gone from the buffer. -/
def windowSizeImpl (bufs : List Nat) (i : Nat) (e : ParseEvent) :
    PResult × List Nat :=
  if e.commandCode ≠ 250 then
    noArgsImpl bufs i e
  else if bufs.length < 9 then
    (PResult.more, bufs)
  else
    let b := bufs.take 9
    if b.getD 0 0 = 255 ∧ b.getD 7 0 = 255 ∧ b.getD 1 0 = 250 ∧
        b.getD 8 0 = 240 ∧ b.getD 2 0 = 31 then
      (PResult.ev { e with buf := b,
                           width := some (b.getD 3 0 * 256 + b.getD 4 0),
                           height := some (b.getD 5 0 * 256 + b.getD 6 0) },
       bufs.drop 9)
    else
      (PResult.err "assert", bufs.drop 9)

/-- The function `parseOption`: reads the option code at index `i`, records its code
and name on the event, then dispatches on `OPTION_IMPLS[option]`.  There
is no fallback: an option code with no table entry is a JS `TypeError`
(`undefined is not a function`). -/
def parseOption (bufs : List Nat) (i : Nat) (e : ParseEvent) :
    PResult × List Nat :=
  let option := bufs.getD i 0
  let e1 := { e with optionCode := some option, option := OPTION_NAMES option }
  if hasNoArgsImpl option then noArgsImpl bufs (i + 1) e1
  else if option = 31 then windowSizeImpl bufs (i + 1) e1
  else (PResult.err "TypeError: no option impl", bufs)

/-- The function `parseCommand`: reads the command code at index `i`, records it and
its name, then dispatches on `COMMAND_IMPLS[command]`.  The
`do`/`dont`/`will`/`wont`/`sb` implementations return `MORE` when fewer
than `i + 2` bytes are buffered, otherwise read the option byte; the
`IAC` implementation splices off the two `IAC` bytes and produces a
1-byte literal-255 `data` payload.  Any other command code has no
`COMMAND_IMPLS` entry: a JS `TypeError`. -/
def parseCommand (bufs : List Nat) (i : Nat) (e : ParseEvent) :
    PResult × List Nat :=
  let command := bufs.getD i 0
  let e1 := { e with commandCode := command, command := COMMAND_NAMES command }
  if command = 250 ∨ command = 251 ∨ command = 252 ∨ command = 253 ∨
      command = 254 then
    if bufs.length < i + 2 then (PResult.more, bufs)
    else parseOption bufs (i + 1) e1
  else if command = 255 then
    (PResult.ev { e1 with buf := bufs.take (i + 1), data := some [255] },
     bufs.drop (i + 1))
  else
    (PResult.err "TypeError: no command impl", bufs)

/-- The function `parse(bufs)`: asserts at least two buffered bytes with an `IAC`
first, then parses the command at index 1 into a fresh event. -/
def parse (bufs : List Nat) : PResult × List Nat :=
  if 2 ≤ bufs.length ∧ bufs.getD 0 0 = 255 then
    parseCommand bufs 1 {}
  else
    (PResult.err "assert", bufs)

/-! ## The Socket input loop -/

/-- What the main input data listener of the session emits to its own
listeners: literal `data` payloads and parsed `event` objects (the
`event`/command-name/option-name emissions all carry the same object,
so one constructor records them). -/
inductive Emit where
  | data (b : List Nat)
  | ev (e : ParseEvent)
deriving DecidableEq

/-- The scan `bufs.indexOf(IAC_BUF)`: the first index of a 255 byte, if any. -/
def findIAC : List Nat → Option Nat
  | [] => none
  | b :: rest =>
    if b = 255 then some 0 else (findIAC rest).map (fun n => n + 1)

/-- The control bytes the two `OptionSet`s write to the output when the
session emits an `event`.  The local set (attached first) declines a
received `DO` with `IAC WONT option`; the remote set declines a received
`WILL` with `IAC DONT option`.  Received `DONT`/`WONT` are ignored, as
are events carrying no (named) option. -/
def socketReplies (e : ParseEvent) : List Nat :=
  (if e.option.isSome ∧ e.commandCode = 253 then
     [255, 252, e.optionCode.getD 0]
   else []) ++
  (if e.option.isSome ∧ e.commandCode = 251 then
     [255, 254, e.optionCode.getD 0]
   else [])

/-- The observable outcome of one transport delivery: the pending
buffer afterwards, the emissions to session listeners in order, the
control bytes written to the output in order, and whether the handler
ran to completion (`ok = false`: a JS exception escaped — an `assert`
failure or a `TypeError`). -/
structure LoopOut where
  bufs : List Nat
  emits : List Emit
  out : List Nat
  ok : Bool
deriving DecidableEq

/-- One round of the `while ((i = bufs.indexOf(IAC_BUF)) >= 0)` loop of
the input `data` listener, with explicit fuel (the loop always
terminates because every produced event consumes at least two bytes;
fuel `length + 1` is always enough).  Mirrors the source: assert a byte
after the IAC, splice off and emit any data before the IAC, parse,
either stop on `MORE`, crash on an exception, or emit the event (which
triggers the `OptionSet` replies) plus any literal payload and
continue; when no IAC remains, flush any residual bytes as data. -/
def runLoop : Nat → List Nat → LoopOut
  | 0, bufs => ⟨bufs, [], [], false⟩
  | fuel + 1, bufs =>
    match findIAC bufs with
    | none =>
      if bufs = [] then ⟨[], [], [], true⟩
      else ⟨[], [Emit.data bufs], [], true⟩
    | some i =>
      if bufs.length ≤ i + 1 then ⟨bufs, [], [], false⟩
      else
        let dEmits := if 0 < i then [Emit.data (bufs.take i)] else []
        let bufs1 := bufs.drop i
        match parse bufs1 with
        | (PResult.more, b2) => ⟨b2, dEmits, [], true⟩
        | (PResult.err _, b2) => ⟨b2, dEmits, [], false⟩
        | (PResult.ev e, b2) =>
          let rest := runLoop fuel b2
          ⟨rest.bufs,
           dEmits ++ [Emit.ev e] ++
             (match e.data with
              | some d => [Emit.data d]
              | none => []) ++ rest.emits,
           socketReplies e ++ rest.out,
           rest.ok⟩

/-- One transport delivery: the chunk is pushed onto the pending buffer
and the input loop runs. -/
def handleData (pending chunk : List Nat) : LoopOut :=
  runLoop ((pending ++ chunk).length + 1) (pending ++ chunk)

/-- The negotiation event `parse` produces for a complete
`IAC <command> <option>` frame. -/
def negEvent (c o : Nat) : ParseEvent :=
  { commandCode := c, command := COMMAND_NAMES c,
    optionCode := some o, option := OPTION_NAMES o,
    buf := [255, c, o] }

/-- The event produced for the second IAC of a doubled-IAC escape. -/
def iacEscapeEvent : ParseEvent :=
  { commandCode := 255, command := some "iac",
    buf := [255, 255], data := some [255] }

/-- The 9-octet window-size subnegotiation frame
`IAC SB 31 w-hi w-lo h-hi h-lo IAC SE`. -/
def wsFrame (w h : Nat) : List Nat :=
  [255, 250, 31, w / 256, w % 256, h / 256, h % 256, 255, 240]

/-! ## Socket.prototype.write

`write(b)` with `convertLF` set runs
`b.toString(utf8).replace(regex CR-optional-LF, CRLF)` and hands the resulting
string to `output.write`, which encodes it back to UTF-8 bytes.  We
model the byte-to-string step as WHATWG UTF-8 decoding to a sequence of
Unicode scalar values (ill-formed subsequences become U+FFFD, as in
Node), the regex as a scan over that sequence, and the string-to-byte
step as UTF-8 encoding. -/

/-- UTF-8 encoding of one Unicode scalar value. -/
def utf8EncodeChar (c : Nat) : List Nat :=
  if c < 0x80 then [c]
  else if c < 0x800 then [0xC0 + c / 0x40, 0x80 + c % 0x40]
  else if c < 0x10000 then
    [0xE0 + c / 0x1000, 0x80 + c / 0x40 % 0x40, 0x80 + c % 0x40]
  else
    [0xF0 + c / 0x40000, 0x80 + c / 0x1000 % 0x40,
     0x80 + c / 0x40 % 0x40, 0x80 + c % 0x40]

/-- UTF-8 encoding of a sequence of scalar values. -/
def utf8Encode (cs : List Nat) : List Nat :=
  cs.foldr (fun c acc => utf8EncodeChar c ++ acc) []

/-- WHATWG UTF-8 decoding with U+FFFD replacement of maximal ill-formed
subsequences (the semantics of the Node buffer utf8 toString). -/
def utf8Decode : List Nat → List Nat
  | [] => []
  | b :: rest =>
    if b ≤ 0x7F then b :: utf8Decode rest
    else if 0xC2 ≤ b ∧ b ≤ 0xDF then
      match rest with
      | [] => [0xFFFD]
      | c1 :: r1 =>
        if 0x80 ≤ c1 ∧ c1 ≤ 0xBF then
          ((b - 0xC0) * 0x40 + (c1 - 0x80)) :: utf8Decode r1
        else 0xFFFD :: utf8Decode (c1 :: r1)
    else if 0xE0 ≤ b ∧ b ≤ 0xEF then
      match rest with
      | [] => [0xFFFD]
      | c1 :: r1 =>
        if (if b = 0xE0 then 0xA0 else 0x80) ≤ c1 ∧
            c1 ≤ (if b = 0xED then 0x9F else 0xBF) then
          match r1 with
          | [] => [0xFFFD]
          | c2 :: r2 =>
            if 0x80 ≤ c2 ∧ c2 ≤ 0xBF then
              ((b - 0xE0) * 0x1000 + (c1 - 0x80) * 0x40 + (c2 - 0x80)) ::
                utf8Decode r2
            else 0xFFFD :: utf8Decode (c2 :: r2)
        else 0xFFFD :: utf8Decode (c1 :: r1)
    else if 0xF0 ≤ b ∧ b ≤ 0xF4 then
      match rest with
      | [] => [0xFFFD]
      | c1 :: r1 =>
        if (if b = 0xF0 then 0x90 else 0x80) ≤ c1 ∧
            c1 ≤ (if b = 0xF4 then 0x8F else 0xBF) then
          match r1 with
          | [] => [0xFFFD]
          | c2 :: r2 =>
            if 0x80 ≤ c2 ∧ c2 ≤ 0xBF then
              match r2 with
              | [] => [0xFFFD]
              | c3 :: r3 =>
                if 0x80 ≤ c3 ∧ c3 ≤ 0xBF then
                  ((b - 0xF0) * 0x40000 + (c1 - 0x80) * 0x1000 +
                      (c2 - 0x80) * 0x40 + (c3 - 0x80)) :: utf8Decode r3
                else 0xFFFD :: utf8Decode (c3 :: r3)
            else 0xFFFD :: utf8Decode (c2 :: r2)
        else 0xFFFD :: utf8Decode (c1 :: r1)
    else 0xFFFD :: utf8Decode rest

/-- The global regex replacement (CR-optional then LF, replaced by CRLF) as a
left-to-right scan over the decoded character sequence: a CR-LF pair or
a lone LF becomes CR-LF; a CR not followed by LF is left alone. -/
def lfNormalize : List Nat → List Nat
  | [] => []
  | c :: rest =>
    if c = 10 then 13 :: 10 :: lfNormalize rest
    else if c = 13 then
      match rest with
      | [] => [13]
      | 10 :: r2 => 13 :: 10 :: lfNormalize r2
      | c2 :: r2 => 13 :: lfNormalize (c2 :: r2)
    else c :: lfNormalize rest

/-- The method `Socket.prototype.write`: the bytes handed to `output.write` for an
input byte sequence `b`.  With `convertLF` set the bytes pass through
the UTF-8 decode / regex-replace / UTF-8 encode pipeline; otherwise
they pass through unchanged. -/
def socketWrite (convertLF : Bool) (b : List Nat) : List Nat :=
  if convertLF then utf8Encode (lfNormalize (utf8Decode b)) else b

/-- Modelled from the wording of the spec, for comparison with `socketWrite`:
the claimed outbound transform replaces, directly in the byte sequence,
every newline — lone LF or already CR-LF — with CR-LF, leaving every
other byte alone. -/
def specNormalizeBytes : List Nat → List Nat
  | [] => []
  | b :: rest =>
    if b = 10 then 13 :: 10 :: specNormalizeBytes rest
    else if b = 13 then
      match rest with
      | [] => [13]
      | 10 :: r2 => 13 :: 10 :: specNormalizeBytes r2
      | b2 :: r2 => 13 :: specNormalizeBytes (b2 :: r2)
    else b :: specNormalizeBytes rest

/-- A Unicode scalar value: in range and not a surrogate. -/
def utf8IsScalar (c : Nat) : Bool :=
  decide (c < 0x110000 ∧ ¬(0xD800 ≤ c ∧ c ≤ 0xDFFF))

/-! ## Demand gating

The `Socket` constructor calls `this.input.pause()` and hooks
`newListener` so that attaching a `data` listener calls
`this.input.resume()`.  The pause/resume buffering itself lives in the
transport (a Node stream handed in at the §6 boundary), not in this
repository, so it is modelled from the spec: while paused the transport
queues delivered chunks instead of emitting them, and `resume` lets the
queued chunks be delivered afterwards, in arrival order, each once. -/

/-- A session wired to its (spec-modelled) pausable transport. -/
structure GatedState where
  /-- transport flow is paused (`input.pause()` ran, no `resume` yet) -/
  paused : Bool
  /-- at least one `data` listener is attached to the session -/
  listening : Bool
  /-- Modelled from the spec: chunks the paused transport has accepted
  but not yet delivered -/
  queued : List (List Nat)
  /-- the pending byte buffer (`bufs`) of the session -/
  pending : List Nat
  /-- data payloads delivered to the data listeners of the session -/
  observedData : List (List Nat)
  /-- control bytes written to the output -/
  out : List Nat
  /-- the handler of some delivery threw -/
  crashed : Bool
deriving DecidableEq

/-- The state right after the `Socket` constructor: input paused, no
listener, everything empty. -/
def initialState : GatedState :=
  ⟨true, false, [], [], [], [], false⟩

/-- Run the input `data` listener on one delivered chunk and record its
observable effects.  `data` emissions reach a listener only if one is
attached (with none attached, the Node emit drops them). -/
def applyDelivery (st : GatedState) (chunk : List Nat) : GatedState :=
  let res := handleData st.pending chunk
  { st with
    pending := res.bufs,
    observedData := st.observedData ++
      (if st.listening then
         res.emits.filterMap (fun e =>
           match e with
           | Emit.data d => some d
           | Emit.ev _ => none)
       else []),
    out := st.out ++ res.out,
    crashed := st.crashed || !res.ok }

/-- Modelled from the spec: a chunk arriving from the wire.  While the
transport is paused it is queued; otherwise it is delivered to the
input `data` listener at once. -/
def arrive (st : GatedState) (chunk : List Nat) : GatedState :=
  if st.paused then { st with queued := st.queued ++ [chunk] }
  else applyDelivery st chunk

/-- Attaching a `data` listener: the `newListener` hook fires first and
resumes the input, the listener is registered, and the chunks the
transport had queued are then delivered in arrival order (`resume`
delivers asynchronously, so the listener is in place when they land). -/
def attachDataListener (st : GatedState) : GatedState :=
  st.queued.foldl applyDelivery
    { st with paused := false, listening := true, queued := [] }

/-! ## Helper lemmas -/

theorem findIAC_eq_none (l : List Nat) (h : 255 ∉ l) : findIAC l = none := by
  induction l with
  | nil => rfl
  | cons b rest ih =>
    simp only [findIAC]
    rw [if_neg (by simp at h; omega)]
    rw [ih (by simp at h; exact h.2)]
    rfl

theorem findIAC_append_last (pre : List Nat) (h : 255 ∉ pre) :
    findIAC (pre ++ [255]) = some pre.length := by
  induction pre with
  | nil => rfl
  | cons b rest ih =>
    simp only [List.cons_append, findIAC]
    rw [if_neg (by simp at h; omega)]
    rw [show rest.append [255] = rest ++ [255] from rfl,
        ih (by simp at h; exact h.2)]
    rfl

/-! ## Claim C1 — default refusal -/

/-- C1 (amended): for every option code that has an `OPTION_IMPLS`
decoder entry (the eleven no-argument options and window-size), a
session with no capability handler registered answers an enable-request
`IAC DO o` with exactly `IAC WONT o`, an `IAC WILL o` with exactly
`IAC DONT o`, and the combined delivery `IAC DO o IAC WILL o` with
exactly `IAC WONT o IAC DONT o`, in that order, without crashing. -/
theorem default_refusal (o : Nat) (ho : o ∈ DECODER_OPTIONS) :
    (handleData [] [255, 253, o]).out = [255, 252, o] ∧
    (handleData [] [255, 253, o]).ok = true ∧
    (handleData [] [255, 251, o]).out = [255, 254, o] ∧
    (handleData [] [255, 251, o]).ok = true ∧
    (handleData [] [255, 253, o, 255, 251, o]).out =
      [255, 252, o, 255, 254, o] ∧
    (handleData [] [255, 253, o, 255, 251, o]).ok = true := by
  fin_cases ho <;> decide

/-- Witness for `default_refusal` at the concrete instance of the claim:
option 31, the combined `IAC DO 31 IAC WILL 31` delivery. -/
theorem default_refusal_witness :
    31 ∈ DECODER_OPTIONS ∧
    (handleData [] [255, 253, 31, 255, 251, 31]).out =
      [255, 252, 31, 255, 254, 31] :=
  ⟨by decide, (default_refusal 31 (by decide)).2.2.2.2.1⟩

/-- C1 counterexample: option 6 (`TIMING_MARK`) has no capability
handler either, yet delivering the enable-request `IAC DO 6` writes no
disable reply at all — the parser throws on the missing
`OPTION_IMPLS[6]` entry, so the universal quantification of the claim over
all handler-less option codes fails. -/
theorem default_refusal_counterexample :
    (handleData [] [255, 253, 6]).out = [] ∧
    (handleData [] [255, 253, 6]).ok = false ∧
    (handleData [] [255, 251, 6]).out = [] := by decide

/-! ## Claim C5 — partial-frame resilience -/

/-- C5 (amended): for every 3-octet negotiation frame
`IAC c o` whose command is `WILL`/`WONT`/`DO`/`DONT` and whose option
code has an `OPTION_IMPLS` decoder entry, delivering `[IAC, c]` first
leaves the pending buffer exactly `[IAC, c]` with nothing emitted, and
the follow-up delivery of `[o]` yields the same observable outcome as
delivering all three bytes at once: exactly one negotiation event. -/
theorem chunking_invariance (c o : Nat)
    (hc : c ∈ ([251, 252, 253, 254] : List Nat))
    (ho : o ∈ DECODER_OPTIONS) :
    handleData [] [255, c] = ⟨[255, c], [], [], true⟩ ∧
    handleData [255, c] [o] = handleData [] [255, c, o] ∧
    (handleData [] [255, c, o]).emits = [Emit.ev (negEvent c o)] ∧
    (handleData [] [255, c, o]).ok = true := by
  fin_cases hc <;> fin_cases ho <;> decide

/-- Witness for `chunking_invariance`: `[IAC, DO]` then `[31]`, the
example split of the claim. -/
theorem chunking_invariance_witness :
    (253 ∈ ([251, 252, 253, 254] : List Nat)) ∧ 31 ∈ DECODER_OPTIONS ∧
    handleData [255, 253] [31] = handleData [] [255, 253, 31] ∧
    (handleData [] [255, 253, 31]).emits = [Emit.ev (negEvent 253 31)] :=
  ⟨by decide, by decide,
   (chunking_invariance 253 31 (by decide) (by decide)).2.1,
   (chunking_invariance 253 31 (by decide) (by decide)).2.2.1⟩

/-- C5 counterexample: the claim quantifies over every split of every
negotiation frame, but splitting `IAC DO 31` as `[IAC]` then `[DO, 31]`
crashes the handler on the first arrival (no negotiation event at all),
and the frame `IAC DO 6` produces no negotiation event even when
delivered whole — its option has no decoder entry. -/
theorem chunking_invariance_counterexample :
    (handleData [] [255]).ok = false ∧
    (handleData [] [255]).emits = [] ∧
    (handleData [] [255, 253, 6]).ok = false ∧
    (handleData [] [255, 253, 6]).emits = [] := by decide

/-! ## Claim C10 — trailing-IAC assertion failure -/

/-- C10: a delivery that leaves the pending buffer with its first IAC
octet as the final byte trips `assert(bufs.length > (i + 1))`: the
handler crashes, emitting nothing — not even the literal data sitting
in front of the IAC — and consuming nothing.  In particular `[IAC]`
alone crashes, even though the split `[IAC, DO]` then `[31]` is
handled. -/
theorem trailing_iac_assert (pre : List Nat) (h : 255 ∉ pre) :
    (handleData [] (pre ++ [255])).ok = false ∧
    (handleData [] (pre ++ [255])).emits = [] ∧
    (handleData [] (pre ++ [255])).bufs = pre ++ [255] := by
  have hbufs : ([] : List Nat) ++ (pre ++ [255]) = pre ++ [255] := by simp
  unfold handleData
  rw [hbufs]
  simp only [runLoop, findIAC_append_last pre h]
  rw [if_pos (by simp)]
  exact ⟨rfl, rfl, rfl⟩

/-- Witness for `trailing_iac_assert`: delivering `[IAC]` alone crashes
the data handler, while the split `[IAC, DO]` then `[31]` is handled
and produces the negotiation event. -/
theorem trailing_iac_assert_witness :
    (255 ∉ ([] : List Nat)) ∧
    (handleData [] ([] ++ [255])).ok = false ∧
    (handleData [] ([] ++ [255])).emits = [] ∧
    (handleData [] [255, 253]).ok = true ∧
    (handleData [] [255, 253]).bufs = [255, 253] ∧
    (handleData [255, 253] [31]).ok = true ∧
    (handleData [255, 253] [31]).emits = [Emit.ev (negEvent 253 31)] ∧
    (handleData [255, 253] [31]).out = [255, 252, 31] :=
  ⟨by decide, (trailing_iac_assert [] (by decide)).1,
   (trailing_iac_assert [] (by decide)).2.1,
   by decide, by decide, by decide, by decide, by decide⟩

/-! ## Claim C8 — doubled-IAC escape -/

/-- C8: parsing a buffer that starts `IAC IAC` produces an event whose
payload is the single byte 255 and consumes exactly 2 bytes, whatever
follows; the session broadcasts that payload as exactly one `data`
event (here shown both for the bare escape and with a trailing literal
byte). -/
theorem doubled_iac (rest : List Nat) :
    parse (255 :: 255 :: rest) = (PResult.ev iacEscapeEvent, rest) ∧
    (handleData [] [255, 255]).emits =
      [Emit.ev iacEscapeEvent, Emit.data [255]] ∧
    (handleData [] [255, 255]).ok = true ∧
    (handleData [] [255, 255]).out = [] ∧
    (handleData [] [255, 255, 104]).emits =
      [Emit.ev iacEscapeEvent, Emit.data [255], Emit.data [104]] := by
  refine ⟨?_, by decide, by decide, by decide, by decide⟩
  simp [parse, parseCommand, List.getD, iacEscapeEvent]
  rfl

/-! ## Claim C7 — window-size decode -/

/-- `parse` on a complete window-size frame: the subnegotiation event
with big-endian width and height, all 9 bytes consumed. -/
theorem parse_wsFrame (w h : Nat) :
    parse (wsFrame w h) =
      (PResult.ev { commandCode := 250, command := some "sb",
                    optionCode := some 31, option := some "window size",
                    buf := wsFrame w h,
                    width := some w, height := some h }, []) := by
  simp only [wsFrame, parse, parseCommand, parseOption, windowSizeImpl,
    hasNoArgsImpl, NO_ARGS_OPTIONS, List.getD]
  norm_num
  exact ⟨rfl, rfl, by omega, by omega⟩

set_option maxHeartbeats 1000000 in
/-- The session outcome of delivering a complete window-size frame:
exactly one event emission, no output, the frame fully consumed. -/
theorem handleData_wsFrame (w h : Nat) :
    handleData [] (wsFrame w h) =
      ⟨[], [Emit.ev { commandCode := 250, command := some "sb",
                      optionCode := some 31, option := some "window size",
                      buf := wsFrame w h,
                      width := some w, height := some h }], [], true⟩ := by
  have h9 : (([] : List Nat) ++ wsFrame w h).length = 9 := by simp [wsFrame]
  unfold handleData
  rw [h9, List.nil_append]
  rw [show (9 + 1 : Nat) = Nat.succ 9 from rfl]
  simp only [runLoop]
  rw [show findIAC (wsFrame w h) = some 0 by simp [wsFrame, findIAC]]
  simp only [wsFrame]
  norm_num
  have hp := parse_wsFrame w h
  simp only [wsFrame] at hp
  rw [hp]
  simp [socketReplies, runLoop, findIAC, wsFrame]

/-- C7: delivering the 9-octet window-size frame produces exactly one
subnegotiation event whose width and height are the 16-bit big-endian
fields, consuming all 9 bytes; any buffered prefix of 2 to 8 bytes
parses to `MORE` with the buffer untouched. -/
theorem window_size_decode (w h : Nat) (hw : w < 65536) (hh : h < 65536) :
    (∃ e : ParseEvent,
       (handleData [] (wsFrame w h)).emits = [Emit.ev e] ∧
       e.width = some w ∧ e.height = some h ∧ e.buf = wsFrame w h) ∧
    (handleData [] (wsFrame w h)).ok = true ∧
    (handleData [] (wsFrame w h)).bufs = [] ∧
    (handleData [] (wsFrame w h)).out = [] ∧
    (∀ k, 2 ≤ k → k ≤ 8 →
       parse ((wsFrame w h).take k) = (PResult.more, (wsFrame w h).take k)) := by
  rw [handleData_wsFrame w h]
  refine ⟨⟨_, rfl, rfl, rfl, rfl⟩, rfl, rfl, rfl, ?_⟩
  intro k hk1 hk2
  interval_cases k <;>
    simp [wsFrame, parse, parseCommand, parseOption, windowSizeImpl,
      hasNoArgsImpl, NO_ARGS_OPTIONS, List.getD]

/-- Witness for `window_size_decode` at the concrete instance of the claim:
width 80, height 24. -/
theorem window_size_decode_witness :
    80 < 65536 ∧ 24 < 65536 ∧
    (∃ e : ParseEvent,
       (handleData [] (wsFrame 80 24)).emits = [Emit.ev e] ∧
       e.width = some 80 ∧ e.height = some 24 ∧ e.buf = wsFrame 80 24) ∧
    wsFrame 80 24 = [255, 250, 31, 0, 80, 0, 24, 255, 240] :=
  ⟨by decide, by decide, (window_size_decode 80 24 (by decide) (by decide)).1,
   by decide⟩

/-! ## Claim C9 — malformed window-size frame detection -/

/-- C9: for a 9-byte buffer that `parse` dispatches to the SB
window-size decoder (first byte IAC, command byte SB, option byte 31),
an assertion-style error is raised exactly when one of the boundary
markers mismatches: byte 0 not IAC, byte 1 not SB, byte 2 not 31,
byte 7 not IAC, or byte 8 not SE; on a well-formed frame no error is
raised. -/
theorem malformed_ws_assert (b0 b1 b2 b3 b4 b5 b6 b7 b8 : Nat)
    (h0 : b0 = 255) (h1 : b1 = 250) (h2 : b2 = 31) :
    (parse [b0, b1, b2, b3, b4, b5, b6, b7, b8]).1 = PResult.err "assert" ↔
      ¬(b0 = 255 ∧ b1 = 250 ∧ b2 = 31 ∧ b7 = 255 ∧ b8 = 240) := by
  subst h0 h1 h2
  simp only [parse, parseCommand, parseOption, windowSizeImpl, noArgsImpl,
    hasNoArgsImpl, NO_ARGS_OPTIONS, List.getD]
  norm_num
  split
  · rename_i hcond
    simp
    omega
  · rename_i hcond
    simp
    omega

/-- Witness for `malformed_ws_assert`: a frame whose byte 7 is 0
instead of IAC raises the assertion error. -/
theorem malformed_ws_assert_witness :
    (parse [255, 250, 31, 0, 80, 0, 24, 0, 240]).1 = PResult.err "assert" :=
  (malformed_ws_assert 255 250 31 0 80 0 24 0 240 rfl rfl rfl).mpr (by decide)

/-! ## Claim C3 — parser buffer discipline -/

/-- C3 (amended): under the parse preconditions (first byte IAC, at
least two bytes buffered), a `MORE` outcome leaves the buffer exactly
as it was — no partial consumption — but a produced `ParseEvent` is
accompanied by the *parser itself* removing the consumed bytes
(`event.buf`) from the front of the buffer via `splice`; the `Socket`
caller removes nothing. -/
theorem parse_buffer_discipline (bufs : List Nat)
    (hlen : 2 ≤ bufs.length) (hiac : bufs.getD 0 0 = 255) :
    ((parse bufs).1 = PResult.more → (parse bufs).2 = bufs) ∧
    (∀ e : ParseEvent, (parse bufs).1 = PResult.ev e →
       bufs = e.buf ++ (parse bufs).2) := by
  rcases bufs with _ | ⟨a, _ | ⟨b, rest⟩⟩
  · simp at hlen
  · simp at hlen
  · have ha : a = 255 := by simpa using hiac
    subst ha
    have hp : parse (255 :: b :: rest) = parseCommand (255 :: b :: rest) 1 {} := by
      unfold parse
      rw [if_pos ⟨by simp, rfl⟩]
    rw [hp]
    unfold parseCommand
    simp only [List.getD_cons_succ, List.getD_cons_zero]
    by_cases hb5 : b = 250 ∨ b = 251 ∨ b = 252 ∨ b = 253 ∨ b = 254
    · rw [if_pos hb5]
      rcases rest with _ | ⟨o, rest2⟩
      · rw [if_pos (by simp)]
        exact ⟨fun _ => rfl, fun e he => by simp at he⟩
      · rw [if_neg (by simp)]
        unfold parseOption
        simp only [List.getD_cons_succ, List.getD_cons_zero]
        by_cases hna : hasNoArgsImpl o = true
        · rw [if_pos hna]
          unfold noArgsImpl
          refine ⟨fun hm => by simp at hm, fun e he => ?_⟩
          simp only [PResult.ev.injEq] at he
          subst he
          simp
        · rw [if_neg hna]
          by_cases h31 : o = 31
          · rw [if_pos h31]
            simp only [windowSizeImpl, noArgsImpl]
            by_cases hsb : b = 250
            · subst hsb
              rw [if_neg (by simp)]
              by_cases h9 : (255 :: 250 :: o :: rest2).length < 9
              · rw [if_pos h9]
                exact ⟨fun _ => rfl, fun e he => by simp at he⟩
              · rw [if_neg h9]
                split
                · refine ⟨fun hm => by simp at hm, fun e he => ?_⟩
                  simp only [PResult.ev.injEq] at he
                  subst he
                  simp [List.take_append_drop]
                · exact ⟨fun hm => by simp at hm, fun e he => by simp at he⟩
            · rw [if_pos (by simpa using hsb)]
              refine ⟨fun hm => by simp at hm, fun e he => ?_⟩
              simp only [PResult.ev.injEq] at he
              subst he
              simp
          · rw [if_neg h31]
            exact ⟨fun hm => by simp at hm, fun e he => by simp at he⟩
    · rw [if_neg hb5]
      by_cases hbi : b = 255
      · rw [if_pos hbi]
        refine ⟨fun hm => by simp at hm, fun e he => ?_⟩
        simp only [PResult.ev.injEq] at he
        subst he
        simp
      · rw [if_neg hbi]
        exact ⟨fun hm => by simp at hm, fun e he => by simp at he⟩

/-- Witness for `parse_buffer_discipline`: the incomplete frame
`[IAC, DO]` parses to `MORE` and the buffer is untouched. -/
theorem parse_buffer_discipline_witness :
    2 ≤ ([255, 253] : List Nat).length ∧
    ([255, 253] : List Nat).getD 0 0 = 255 ∧
    (parse [255, 253]).2 = [255, 253] :=
  ⟨by decide, by decide,
   (parse_buffer_discipline [255, 253] (by decide) (by decide)).1 (by decide)⟩

/-- C3 counterexample: the claim says `parse` leaves the buffer itself
unmodified in every outcome, but on the complete frame `IAC DO 31` the
parser splices all three bytes out of the buffer. -/
theorem parse_buffer_discipline_counterexample :
    (parse [255, 253, 31]).2 = [] ∧ (parse [255, 253, 31]).2 ≠ [255, 253, 31] := by
  decide

/-! ## Claim C4 — unknown-option handling -/

/-- C4 (amended): for a negotiation frame `IAC c o` with
`c ∈ {WILL, WONT, DO, DONT}`: when `o` is registered to the
no-argument decoder, parsing consumes exactly through the option-code
byte with no payload and produces a normal `ParseEvent`; but when `o`
has no `OPTION_IMPLS` entry at all (`TIMING_MARK` = 6, or any code
outside the table, `WINDOW_SIZE` excepted), there is no fallback —
parsing raises a missing-handler error and no event is produced. -/
theorem unknown_option_no_fallback (c o : Nat)
    (hc : c = 251 ∨ c = 252 ∨ c = 253 ∨ c = 254) :
    (o ∈ NO_ARGS_OPTIONS →
       parse [255, c, o] =
         (PResult.ev { commandCode := c, command := COMMAND_NAMES c,
                       optionCode := some o, option := OPTION_NAMES o,
                       buf := [255, c, o] }, [])) ∧
    (o ∉ NO_ARGS_OPTIONS → o ≠ 31 →
       parse [255, c, o] =
         (PResult.err "TypeError: no option impl", [255, c, o])) := by
  have hp : parse [255, c, o] = parseCommand [255, c, o] 1 {} := by
    unfold parse; rw [if_pos ⟨by simp, rfl⟩]
  rw [hp]
  unfold parseCommand
  simp only [List.getD_cons_succ, List.getD_cons_zero]
  rw [if_pos (by tauto)]
  rw [if_neg (by simp)]
  unfold parseOption
  simp only [List.getD_cons_succ, List.getD_cons_zero]
  constructor
  · intro ho
    rw [if_pos (show hasNoArgsImpl o = true by simpa [hasNoArgsImpl] using ho)]
    unfold noArgsImpl
    simp
  · intro ho h31
    rw [if_neg (show ¬hasNoArgsImpl o = true by simpa [hasNoArgsImpl] using ho),
        if_neg h31]

/-- Witness for `unknown_option_no_fallback`: `IAC DO 1` (echo, a
no-argument option) parses to an event; `IAC DO 6` (timing mark, no
decoder entry) raises. -/
theorem unknown_option_no_fallback_witness :
    (253 = 251 ∨ 253 = 252 ∨ 253 = 253 ∨ 253 = 254) ∧
    parse [255, 253, 1] =
      (PResult.ev { commandCode := 253, command := COMMAND_NAMES 253,
                    optionCode := some 1, option := OPTION_NAMES 1,
                    buf := [255, 253, 1] }, []) ∧
    parse [255, 253, 6] =
      (PResult.err "TypeError: no option impl", [255, 253, 6]) :=
  ⟨by decide,
   (unknown_option_no_fallback 253 1 (by decide)).1 (by decide),
   (unknown_option_no_fallback 253 6 (by decide)).2 (by decide) (by decide)⟩

/-- C4 counterexample: for `TIMING_MARK` (6) — named in the claim as
falling back to the no-argument decoder — parsing `IAC DO 6` does not
produce a normal `ParseEvent`: it raises, and at session level the
delivery crashes instead of being resolved by default refusal. -/
theorem unknown_option_no_fallback_counterexample :
    (parse [255, 253, 6]).1 = PResult.err "TypeError: no option impl" ∧
    (handleData [] [255, 253, 6]).ok = false ∧
    (handleData [] [255, 253, 6]).out = [] := by decide

/-! ## Claim C6 — demand gating -/

/-- Arrivals at a paused session are queued by the transport, in
order; nothing else changes. -/
theorem foldl_arrive_paused (cs : List (List Nat)) (st : GatedState)
    (h : st.paused = true) :
    cs.foldl arrive st = { st with queued := st.queued ++ cs } := by
  induction cs generalizing st with
  | nil => simp
  | cons ch rest ih =>
    simp only [List.foldl_cons, arrive, h, if_true]
    rw [ih _ (by simp)]
    simp

/-- A nonempty IAC-free chunk delivered against an empty pending
buffer is emitted as exactly one `data` event and fully consumed. -/
theorem handleData_iacFree (ch : List Nat) (hni : 255 ∉ ch) (hne : ch ≠ []) :
    handleData [] ch = ⟨[], [Emit.data ch], [], true⟩ := by
  unfold handleData
  rw [List.nil_append]
  simp only [runLoop]
  rw [findIAC_eq_none ch hni]
  simp only []
  rw [if_neg hne]

/-- Delivering a sequence of nonempty IAC-free chunks to a listening
session with an empty pending buffer appends exactly those chunks, in
order, to the observed data; the buffer stays empty and nothing
crashes. -/
theorem foldl_applyDelivery_clean (cs : List (List Nat)) (st : GatedState)
    (hl : st.listening = true) (hp : st.pending = [])
    (h : ∀ ch ∈ cs, 255 ∉ ch ∧ ch ≠ []) :
    (cs.foldl applyDelivery st).observedData = st.observedData ++ cs ∧
    (cs.foldl applyDelivery st).pending = [] ∧
    (cs.foldl applyDelivery st).crashed = st.crashed := by
  induction cs generalizing st with
  | nil => simp [hp]
  | cons ch rest ih =>
    have hch := h ch (by simp)
    have hstep : applyDelivery st ch =
        { st with observedData := st.observedData ++ [ch], pending := [] } := by
      unfold applyDelivery
      rw [hp, handleData_iacFree ch hch.1 hch.2]
      simp [hl]
    simp only [List.foldl_cons, hstep]
    have := ih { st with observedData := st.observedData ++ [ch], pending := [] }
      (by exact hl) (by rfl) (fun x hx => h x (by simp [hx]))
    simp only at this
    refine ⟨?_, this.2.1, this.2.2⟩
    rw [this.1]
    simp

/-- C6: with the session constructed paused, chunks arriving before any
`data` listener is attached produce no data event at all; attaching a
data listener resumes the input, and every previously-arrived chunk is
then observed exactly once, in original arrival order, with no crash
(shown for nonempty IAC-free chunks, i.e. pure application data). -/
theorem demand_gating (cs : List (List Nat))
    (hcs : ∀ ch ∈ cs, 255 ∉ ch ∧ ch ≠ []) :
    (cs.foldl arrive initialState).observedData = [] ∧
    (cs.foldl arrive initialState).paused = true ∧
    (attachDataListener (cs.foldl arrive initialState)).observedData = cs ∧
    (attachDataListener (cs.foldl arrive initialState)).crashed = false := by
  rw [foldl_arrive_paused cs initialState rfl]
  refine ⟨rfl, rfl, ?_, ?_⟩ <;>
  · unfold attachDataListener initialState
    simp only [List.nil_append]
    have h := foldl_applyDelivery_clean cs
      ⟨false, true, [], [], [], [], false⟩ rfl rfl hcs
    simp_all

/-- Witness for `demand_gating`: two chunks arriving before the
listener; both are observed, in order, only after attachment. -/
theorem demand_gating_witness :
    (∀ ch ∈ ([[104], [105, 10]] : List (List Nat)), 255 ∉ ch ∧ ch ≠ []) ∧
    (([[104], [105, 10]] : List (List Nat)).foldl arrive
        initialState).observedData = [] ∧
    (attachDataListener (([[104], [105, 10]] : List (List Nat)).foldl arrive
        initialState)).observedData = [[104], [105, 10]] :=
  ⟨by decide, (demand_gating _ (by decide)).1,
   (demand_gating _ (by decide)).2.2.1⟩

/-! ## Claim C2 — outbound line-ending normalization -/

theorem utf8Encode_cons (c : Nat) (l : List Nat) :
    utf8Encode (c :: l) = utf8EncodeChar c ++ utf8Encode l := rfl

set_option maxHeartbeats 1000000 in
set_option maxRecDepth 4000 in
/-- Decoding the UTF-8 encoding of one scalar value in front of any
byte tail yields that scalar value followed by the decoded tail. -/
theorem utf8Decode_encodeChar (c : Nat) (h1 : c < 0x110000)
    (h2 : ¬(0xD800 ≤ c ∧ c ≤ 0xDFFF)) (bs : List Nat) :
    utf8Decode (utf8EncodeChar c ++ bs) = c :: utf8Decode bs := by
  by_cases hc1 : c < 0x80
  · simp only [utf8EncodeChar, if_pos hc1, List.cons_append, List.nil_append]
    rw [utf8Decode.eq_def]
    dsimp only
    rw [if_pos (by omega)]
  · by_cases hc2 : c < 0x800
    · simp only [utf8EncodeChar, if_neg hc1, if_pos hc2, List.cons_append,
        List.nil_append]
      rw [utf8Decode.eq_def]
      dsimp only
      rw [if_neg (by omega), if_pos (by omega)]
      rw [if_pos (by omega)]
      congr 1
      omega
    · by_cases hc3 : c < 0x10000
      · simp only [utf8EncodeChar, if_neg hc1, if_neg hc2, if_pos hc3,
          List.cons_append, List.nil_append]
        rw [utf8Decode.eq_def]
        dsimp only
        rw [if_neg (by omega), if_neg (by omega), if_pos (by omega)]
        rw [if_pos (by refine ⟨?_, ?_⟩ <;> split <;> omega)]
        rw [if_pos (by omega)]
        congr 1
        omega
      · simp only [utf8EncodeChar, if_neg hc1, if_neg hc2, if_neg hc3,
          List.cons_append, List.nil_append]
        rw [utf8Decode.eq_def]
        dsimp only
        rw [if_neg (by omega), if_neg (by omega), if_neg (by omega),
            if_pos (by omega)]
        rw [if_pos (by refine ⟨?_, ?_⟩ <;> split <;> omega)]
        rw [if_pos (by omega)]
        rw [if_pos (by omega)]
        congr 1
        omega

/-- UTF-8 decoding is a left inverse of encoding on scalar values. -/
theorem utf8Decode_encode (cs : List Nat)
    (h : ∀ c ∈ cs, utf8IsScalar c = true) :
    utf8Decode (utf8Encode cs) = cs := by
  induction cs with
  | nil => rfl
  | cons c rest ih =>
    have hc := h c (by simp)
    simp only [utf8IsScalar, decide_eq_true_eq] at hc
    rw [utf8Encode_cons, utf8Decode_encodeChar c hc.1 hc.2 (utf8Encode rest),
        ih (fun x hx => h x (by simp [hx]))]

/-- Every byte of the multi-byte encoding of a non-ASCII scalar is at
least `0x80` — in particular it is neither LF nor CR. -/
theorem utf8EncodeChar_all_hi (c : Nat) (hc : 0x80 ≤ c) :
    ∀ b ∈ utf8EncodeChar c, 0x80 ≤ b := by
  intro b hb
  by_cases h1 : c < 0x80
  · omega
  · by_cases h2 : c < 0x800
    · simp [utf8EncodeChar, h1, h2] at hb
      rcases hb with rfl | rfl <;> omega
    · by_cases h3 : c < 0x10000
      · simp [utf8EncodeChar, h1, h2, h3] at hb
        rcases hb with rfl | rfl | rfl <;> omega
      · simp [utf8EncodeChar, h1, h2, h3] at hb
        rcases hb with rfl | rfl | rfl | rfl <;> omega

/-- The encoding of a scalar other than LF never starts with an LF
byte. -/
theorem utf8EncodeChar_head_ne (c : Nat) (hne : c ≠ 10) :
    ∃ x xs, utf8EncodeChar c = x :: xs ∧ x ≠ 10 := by
  by_cases h1 : c < 0x80
  · exact ⟨c, [], by simp [utf8EncodeChar, h1], hne⟩
  · by_cases h2 : c < 0x800
    · exact ⟨0xC0 + c / 0x40, [0x80 + c % 0x40],
        by simp [utf8EncodeChar, h1, h2], by omega⟩
    · by_cases h3 : c < 0x10000
      · exact ⟨0xE0 + c / 0x1000, [0x80 + c / 0x40 % 0x40, 0x80 + c % 0x40],
          by simp [utf8EncodeChar, h1, h2, h3], by omega⟩
      · exact ⟨0xF0 + c / 0x40000,
          [0x80 + c / 0x1000 % 0x40, 0x80 + c / 0x40 % 0x40, 0x80 + c % 0x40],
          by simp [utf8EncodeChar, h1, h2, h3], by omega⟩

theorem specN_cons_other (b : Nat) (bs : List Nat) (h10 : b ≠ 10)
    (h13 : b ≠ 13) :
    specNormalizeBytes (b :: bs) = b :: specNormalizeBytes bs := by
  rw [specNormalizeBytes.eq_def]
  dsimp only
  rw [if_neg h10, if_neg h13]

theorem specN_cr_cons (x : Nat) (xs : List Nat) (hx : x ≠ 10) :
    specNormalizeBytes (13 :: x :: xs) = 13 :: specNormalizeBytes (x :: xs) := by
  rw [specNormalizeBytes.eq_def]
  dsimp only
  rw [if_neg (by omega), if_pos rfl]
  split
  · rename_i heq
    exact absurd heq (by simp)
  · rename_i heq
    injection heq with h1 h2
    exact absurd h1 hx
  · rename_i heq
    rw [← heq]

theorem specN_append_hi (xs ys : List Nat) (h : ∀ b ∈ xs, 0x80 ≤ b) :
    specNormalizeBytes (xs ++ ys) = xs ++ specNormalizeBytes ys := by
  induction xs with
  | nil => simp
  | cons b rest ih =>
    have hb := h b (by simp)
    rw [List.cons_append, specN_cons_other b _ (by omega) (by omega),
        ih (fun x hx => h x (by simp [hx]))]
    simp

theorem lf_cons_lf (r : List Nat) :
    lfNormalize (10 :: r) = 13 :: 10 :: lfNormalize r := by
  rw [lfNormalize.eq_def]
  dsimp only
  rw [if_pos rfl]

theorem lf_cons_other (c : Nat) (r : List Nat) (h10 : c ≠ 10) (h13 : c ≠ 13) :
    lfNormalize (c :: r) = c :: lfNormalize r := by
  rw [lfNormalize.eq_def]
  dsimp only
  rw [if_neg h10, if_neg h13]

theorem lf_cr_lf (r : List Nat) :
    lfNormalize (13 :: 10 :: r) = 13 :: 10 :: lfNormalize r := by
  rw [lfNormalize.eq_def]
  dsimp only
  rw [if_neg (by omega), if_pos rfl]

theorem lf_cr_other (x : Nat) (xs : List Nat) (hx : x ≠ 10) :
    lfNormalize (13 :: x :: xs) = 13 :: lfNormalize (x :: xs) := by
  rw [lfNormalize.eq_def]
  dsimp only
  rw [if_neg (by omega), if_pos rfl]
  split
  · rename_i heq
    exact absurd heq (by simp)
  · rename_i heq
    injection heq with h1 h2
    exact absurd h1 hx
  · rename_i heq
    rw [← heq]

/-- Normalizing newlines in the byte sequence (the wording of the spec)
commutes with UTF-8 encoding of the character sequence: multi-byte
characters contain no LF/CR bytes, so both transforms touch exactly
the same positions. -/
theorem specN_utf8Encode_aux (n : Nat) : ∀ (cs : List Nat), cs.length ≤ n →
    (∀ c ∈ cs, utf8IsScalar c = true) →
    specNormalizeBytes (utf8Encode cs) = utf8Encode (lfNormalize cs) := by
  induction n with
  | zero =>
    intro cs hlen _
    have : cs = [] := by
      cases cs
      · rfl
      · simp at hlen
    subst this
    rfl
  | succ n ihn =>
    intro cs hlen h
    rcases cs with _ | ⟨c, rest⟩
    · rfl
    · have hc : c < 0x110000 ∧ ¬(0xD800 ≤ c ∧ c ≤ 0xDFFF) := by
        have := h c (by simp)
        simp [utf8IsScalar] at this
        omega
      have hrest : ∀ x ∈ rest, utf8IsScalar x = true :=
        fun x hx => h x (by simp [hx])
      by_cases hc10 : c = 10
      · subst hc10
        rw [utf8Encode_cons, show utf8EncodeChar 10 = [10] by rfl,
            List.singleton_append, lf_cons_lf]
        rw [specNormalizeBytes.eq_def]
        dsimp only
        rw [if_pos rfl]
        rw [ihn rest (by simpa using hlen) hrest]
        rfl
      · by_cases hc13 : c = 13
        · subst hc13
          rcases rest with _ | ⟨r0, r2⟩
          · decide
          · by_cases hr0 : r0 = 10
            · subst hr0
              rw [utf8Encode_cons, show utf8EncodeChar 13 = [13] by rfl,
                  List.singleton_append, utf8Encode_cons,
                  show utf8EncodeChar 10 = [10] by rfl,
                  List.singleton_append, lf_cr_lf]
              rw [specNormalizeBytes.eq_def]
              dsimp only
              rw [if_neg (by omega), if_pos rfl]
              rw [ihn r2 (by simp at hlen; omega)
                  (fun x hx => h x (by simp [hx]))]
              rfl
            · rw [utf8Encode_cons, show utf8EncodeChar 13 = [13] by rfl,
                  List.singleton_append, lf_cr_other r0 r2 hr0]
              obtain ⟨x, xs, hx, hx10⟩ := utf8EncodeChar_head_ne r0 hr0
              rw [utf8Encode_cons, hx, List.cons_append]
              rw [specN_cr_cons x (xs ++ utf8Encode r2) hx10]
              rw [← List.cons_append, ← hx, ← utf8Encode_cons]
              rw [ihn (r0 :: r2) (by simpa using hlen) hrest]
              rfl
        · by_cases chi : c < 0x80
          · rw [utf8Encode_cons, show utf8EncodeChar c = [c] by
                simp [utf8EncodeChar, chi], List.singleton_append,
                lf_cons_other c rest hc10 hc13,
                specN_cons_other c _ hc10 hc13,
                ihn rest (by simpa using hlen) hrest]
            rw [utf8Encode_cons, show utf8EncodeChar c = [c] by
                simp [utf8EncodeChar, chi], List.singleton_append]
          · rw [utf8Encode_cons,
                specN_append_hi _ _ (utf8EncodeChar_all_hi c (by omega)),
                ihn rest (by simpa using hlen) hrest,
                lf_cons_other c rest hc10 hc13, utf8Encode_cons]

theorem specN_utf8Encode (cs : List Nat)
    (h : ∀ c ∈ cs, utf8IsScalar c = true) :
    specNormalizeBytes (utf8Encode cs) = utf8Encode (lfNormalize cs) :=
  specN_utf8Encode_aux cs.length cs (le_refl _) h

/-- C2 (amended): for every byte sequence that is a valid UTF-8
encoding of scalar values, `write` with `convertLF` set hands the
transport exactly the byte sequence obtained by replacing every
newline — lone LF or already CR-LF — with CR-LF.  (For byte sequences
that are not valid UTF-8 the claim fails: `write` routes the bytes
through a lossy UTF-8 decode, see the counterexample.) -/
theorem write_normalization (cs : List Nat)
    (h : ∀ c ∈ cs, utf8IsScalar c = true) :
    socketWrite true (utf8Encode cs) = specNormalizeBytes (utf8Encode cs) := by
  unfold socketWrite
  rw [if_pos rfl, utf8Decode_encode cs h, specN_utf8Encode cs h]

/-- Witness for `write_normalization`: the ASCII bytes `h\n` become
`h\r\n`. -/
theorem write_normalization_witness :
    (∀ c ∈ ([104, 10] : List Nat), utf8IsScalar c = true) ∧
    socketWrite true (utf8Encode [104, 10]) =
      specNormalizeBytes (utf8Encode [104, 10]) :=
  ⟨by decide, write_normalization [104, 10] (by decide)⟩

/-- C2 counterexample: the claim quantifies over every byte sequence,
but for the single byte 255 (not valid UTF-8) the bytes handed to the
transport are the UTF-8 replacement character `EF BF BD`, not the
byte sequence itself with newlines normalized. -/
theorem write_normalization_counterexample :
    socketWrite true [255] = [239, 191, 189] ∧
    specNormalizeBytes [255] = [255] ∧
    socketWrite true [255] ≠ specNormalizeBytes [255] := by decide

end Telnet
